import Mathlib

/-!
Verification of the raytracer's core against its natural-language
specification.

The renderer's `f64` arithmetic is shallowly embedded over `ℚ`.  The only
non-rational operation the modelled code performs is `f64::sqrt`; every
definition that needs it takes an explicit square-root oracle
`sq : ℚ → ℚ`, and theorems assume exactly the properties of `sq` they
need.  Random draws (`random_in_unit_sphere`, the uniform `[0,1)` draw)
are modelled as explicit streams read off a cursor, mirroring the code's
`&mut SmallRng` threading.
-/

set_option linter.unusedVariables false

namespace RT

/-- 3-component vector over ℚ, modelling `nalgebra::Vector3<f64>`
(`type Vec3 = Vector3<f64>` in `util.rs`).  Used for points, directions
and colors alike, as in the source. -/
structure Vec3 where
  x : ℚ
  y : ℚ
  z : ℚ
deriving DecidableEq

instance : Add Vec3 := ⟨fun a b => ⟨a.x + b.x, a.y + b.y, a.z + b.z⟩⟩
instance : Sub Vec3 := ⟨fun a b => ⟨a.x - b.x, a.y - b.y, a.z - b.z⟩⟩
instance : Neg Vec3 := ⟨fun a => ⟨-a.x, -a.y, -a.z⟩⟩
instance : SMul ℚ Vec3 := ⟨fun c a => ⟨c * a.x, c * a.y, c * a.z⟩⟩
instance : Zero Vec3 := ⟨⟨0, 0, 0⟩⟩

@[simp] theorem vadd_x (a b : Vec3) : (a + b).x = a.x + b.x := rfl
@[simp] theorem vadd_y (a b : Vec3) : (a + b).y = a.y + b.y := rfl
@[simp] theorem vadd_z (a b : Vec3) : (a + b).z = a.z + b.z := rfl
@[simp] theorem vsub_x (a b : Vec3) : (a - b).x = a.x - b.x := rfl
@[simp] theorem vsub_y (a b : Vec3) : (a - b).y = a.y - b.y := rfl
@[simp] theorem vsub_z (a b : Vec3) : (a - b).z = a.z - b.z := rfl
@[simp] theorem vneg_x (a : Vec3) : (-a).x = -a.x := rfl
@[simp] theorem vneg_y (a : Vec3) : (-a).y = -a.y := rfl
@[simp] theorem vneg_z (a : Vec3) : (-a).z = -a.z := rfl
@[simp] theorem vsmul_x (c : ℚ) (a : Vec3) : (c • a).x = c * a.x := rfl
@[simp] theorem vsmul_y (c : ℚ) (a : Vec3) : (c • a).y = c * a.y := rfl
@[simp] theorem vsmul_z (c : ℚ) (a : Vec3) : (c • a).z = c * a.z := rfl

@[simp] theorem vadd_mk (a b c d e f : ℚ) :
    Vec3.mk a b c + Vec3.mk d e f = ⟨a + d, b + e, c + f⟩ := rfl
@[simp] theorem vsub_mk (a b c d e f : ℚ) :
    Vec3.mk a b c - Vec3.mk d e f = ⟨a - d, b - e, c - f⟩ := rfl
@[simp] theorem vneg_mk (a b c : ℚ) : -Vec3.mk a b c = ⟨-a, -b, -c⟩ := rfl
@[simp] theorem vsmul_mk (k a b c : ℚ) : k • Vec3.mk a b c = ⟨k * a, k * b, k * c⟩ := rfl

/-- `Vector3::dot`. -/
def dot (a b : Vec3) : ℚ := a.x * b.x + a.y * b.y + a.z * b.z

/-- `Vector3::cross`. -/
def cross (a b : Vec3) : Vec3 :=
  ⟨a.y * b.z - a.z * b.y, a.z * b.x - a.x * b.z, a.x * b.y - a.y * b.x⟩

/-- `Vector3::magnitude_squared`. -/
def magSq (a : Vec3) : ℚ := a.x * a.x + a.y * a.y + a.z * a.z

/-- Component-wise product, `Vector3::component_mul`. -/
def componentMul (a b : Vec3) : Vec3 := ⟨a.x * b.x, a.y * b.y, a.z * b.z⟩

/-- Vector divided by a scalar (`v / c` in nalgebra). -/
def vdiv (a : Vec3) (c : ℚ) : Vec3 := ⟨a.x / c, a.y / c, a.z / c⟩

/-- `Vector3::normalize`: `v / v.magnitude()`, with the square root taken
from the oracle `sq`. -/
def normalizeV (sq : ℚ → ℚ) (v : Vec3) : Vec3 := vdiv v (sq (magSq v))

/-- `util::near_zero`: all three components below `1e-8` in absolute
value. -/
def nearZero (v : Vec3) : Bool :=
  decide (abs v.x < 1 / 100000000 ∧ abs v.y < 1 / 100000000 ∧ abs v.z < 1 / 100000000)

/-- `util::reflect`: `v - 2.0 * v.dot(n) * n`. -/
def reflect (v n : Vec3) : Vec3 := v - (2 * dot v n) • n

/-- `util::refract` (Snell's law split into perpendicular and parallel
components); `sq` models `f64::sqrt`. -/
def refract (sq : ℚ → ℚ) (uv n : Vec3) (etai_over_etat : ℚ) : Vec3 :=
  let cos_theta := min (dot (-uv) n) 1
  let r_out_perp := etai_over_etat • (uv + cos_theta • n)
  let r_out_parallel := (-(sq (abs (1 - magSq r_out_perp)))) • n
  r_out_perp + r_out_parallel

/-- `util::Ray`. -/
structure RayQ where
  orig : Vec3
  dir : Vec3
deriving DecidableEq

/-- `Ray::at`: `orig + dir * t`. -/
def RayQ.at (r : RayQ) (t : ℚ) : Vec3 := r.orig + t • r.dir

/-- The closed material sum replacing `dyn Material`
(variants `Lambertian`, `Metal`, `Dielectric` of `material.rs`). -/
inductive MaterialQ where
  | lambertian (albedo : Vec3)
  | metal (albedo : Vec3) (fuzz : ℚ)
  | dielectric (ir : ℚ)
deriving DecidableEq

/-- `hittables::HitRecord`. -/
structure HitRecQ where
  p : Vec3
  normal : Vec3
  material : MaterialQ
  t : ℚ
  front_face : Bool
deriving DecidableEq

/-- `HitRecord::new`: orient the stored normal against the incoming ray
(`front_face = ray.direction().dot(outward_normal) < 0.`; flip the
normal when `front_face` is false). -/
def hitRecordNew (p : Vec3) (outward_normal : Vec3) (material : MaterialQ) (t : ℚ)
    (ray : RayQ) : HitRecQ :=
  ⟨p,
   if dot ray.dir outward_normal < 0 then outward_normal else -outward_normal,
   material,
   t,
   if dot ray.dir outward_normal < 0 then true else false⟩

@[simp] theorem hitRecordNew_t (p n : Vec3) (m : MaterialQ) (t : ℚ) (r : RayQ) :
    (hitRecordNew p n m t r).t = t := rfl

@[simp] theorem hitRecordNew_material (p n : Vec3) (m : MaterialQ) (t : ℚ) (r : RayQ) :
    (hitRecordNew p n m t r).material = m := rfl

theorem magSq_nonneg (v : Vec3) : 0 ≤ magSq v := by
  have hx : 0 ≤ v.x * v.x := mul_self_nonneg _
  have hy : 0 ≤ v.y * v.y := mul_self_nonneg _
  have hz : 0 ≤ v.z * v.z := mul_self_nonneg _
  unfold magSq
  linarith

/-! ## Sphere intersection (`hittables.rs`, `impl Hittable for Sphere`) -/

/-- `hittables::Sphere` (center, radius, shared material). -/
structure SphereQ where
  center : Vec3
  radius : ℚ
  material : MaterialQ
deriving DecidableEq

/-- `oc = r.origin() - self.center` in `Sphere::hit`. -/
def sphOC (s : SphereQ) (r : RayQ) : Vec3 := r.orig - s.center

/-- `a = r.direction().magnitude_squared()` in `Sphere::hit`. -/
def sphA (r : RayQ) : ℚ := magSq r.dir

/-- `half_b = oc.dot(&r.direction())` in `Sphere::hit`. -/
def sphHalfB (s : SphereQ) (r : RayQ) : ℚ := dot (sphOC s r) r.dir

/-- `c = oc.magnitude_squared() - radius * radius` in `Sphere::hit`. -/
def sphC (s : SphereQ) (r : RayQ) : ℚ := magSq (sphOC s r) - s.radius * s.radius

/-- `discriminant = half_b * half_b - a * c` in `Sphere::hit`. -/
def sphDisc (s : SphereQ) (r : RayQ) : ℚ :=
  sphHalfB s r * sphHalfB s r - sphA r * sphC s r

/-- The smaller quadratic root `(-half_b - sqrtd) / a`. -/
def sphT1 (sq : ℚ → ℚ) (s : SphereQ) (r : RayQ) : ℚ :=
  (-sphHalfB s r - sq (sphDisc s r)) / sphA r

/-- The larger quadratic root `(-half_b + sqrtd) / a`. -/
def sphT2 (sq : ℚ → ℚ) (s : SphereQ) (r : RayQ) : ℚ :=
  (-sphHalfB s r + sq (sphDisc s r)) / sphA r

/-- The record `Sphere::hit` builds at parameter `t`:
`p = r.at(t)`, `normal = (p - center) / radius`, passed to
`HitRecord::new`. -/
def mkSphereRec (s : SphereQ) (r : RayQ) (t : ℚ) : HitRecQ :=
  hitRecordNew (r.at t) (vdiv (r.at t - s.center) s.radius) s.material t r

/-- `Sphere::hit`: reject a negative discriminant, then try the smaller
root and fall back to the larger one, rejecting a root `t` with
`t < t_min || t_max < t`. -/
def sphereHit (sq : ℚ → ℚ) (s : SphereQ) (r : RayQ) (tmin tmax : ℚ) : Option HitRecQ :=
  if sphDisc s r < 0 then none
  else if sphT1 sq s r < tmin ∨ tmax < sphT1 sq s r then
    if sphT2 sq s r < tmin ∨ tmax < sphT2 sq s r then none
    else some (mkSphereRec s r (sphT2 sq s r))
  else some (mkSphereRec s r (sphT1 sq s r))

@[simp] theorem mkSphereRec_t (s : SphereQ) (r : RayQ) (t : ℚ) :
    (mkSphereRec s r t).t = t := rfl

theorem sphT1_le_sphT2 (sq : ℚ → ℚ) (s : SphereQ) (r : RayQ)
    (hs : 0 ≤ sq (sphDisc s r)) : sphT1 sq s r ≤ sphT2 sq s r :=
  div_le_div_of_nonneg_right (by linarith) (magSq_nonneg r.dir)

/-- A returned sphere hit lies in the closed interval `[tmin, tmax]`. -/
theorem sphereHit_t_mem (sq : ℚ → ℚ) (s : SphereQ) (r : RayQ) (tmin tmax : ℚ)
    (rec : HitRecQ) (h : sphereHit sq s r tmin tmax = some rec) :
    tmin ≤ rec.t ∧ rec.t ≤ tmax := by
  unfold sphereHit at h
  split_ifs at h with h1 h2 h3
  · push_neg at h3
    injection h with h
    rw [← h, mkSphereRec_t]
    exact h3
  · push_neg at h2
    injection h with h
    rw [← h, mkSphereRec_t]
    exact h2

/-- Narrowing the upper bound does not change a successful sphere hit:
a hit found with upper bound `c ≤ tmax` is also the hit found with
upper bound `tmax`. -/
theorem sphereHit_narrow_some (sq : ℚ → ℚ) (s : SphereQ) (r : RayQ) (tmin c tmax : ℚ)
    (rec : HitRecQ) (hs : 0 ≤ sq (sphDisc s r)) (hc : c ≤ tmax)
    (h : sphereHit sq s r tmin c = some rec) :
    sphereHit sq s r tmin tmax = some rec := by
  have h12 := sphT1_le_sphT2 sq s r hs
  unfold sphereHit at h ⊢
  split_ifs at h with h1 h2 h3
  · -- narrowed query took the larger root `t2`
    push_neg at h3
    rw [if_neg h1]
    have ht1 : sphT1 sq s r < tmin := by
      rcases h2 with h2 | h2
      · exact h2
      · exact absurd h2 (by linarith)
    rw [if_pos (Or.inl ht1), if_neg (by push_neg; exact ⟨h3.1, by linarith⟩)]
    exact h
  · -- narrowed query took the smaller root `t1`
    push_neg at h2
    rw [if_neg h1, if_neg (by push_neg; exact ⟨h2.1, by linarith⟩)]
    exact h

/-- If the sphere reports no hit with upper bound `c` but reports a hit
with upper bound `tmax`, that hit lies strictly beyond `c`. -/
theorem sphereHit_narrow_none (sq : ℚ → ℚ) (s : SphereQ) (r : RayQ) (tmin c tmax : ℚ)
    (rec : HitRecQ) (hnone : sphereHit sq s r tmin c = none)
    (h : sphereHit sq s r tmin tmax = some rec) : c < rec.t := by
  unfold sphereHit at hnone h
  split_ifs at hnone with h1 h2 h3
  · -- negative discriminant: the full query cannot return a hit
    rw [if_pos h1] at h
    exact absurd h (by simp)
  · -- discriminant nonnegative, both roots rejected for `[tmin, c]`
    split_ifs at h with h4 h5
    · -- full query returned `t2`
      push_neg at h5
      injection h with h
      rw [← h, mkSphereRec_t]
      rcases h3 with h3 | h3
      · exact absurd h3 (by linarith [h5.1])
      · exact h3
    · -- full query returned `t1`
      push_neg at h4
      injection h with h
      rw [← h, mkSphereRec_t]
      rcases h2 with h2 | h2
      · exact absurd h2 (by linarith [h4.1])
      · exact h2

/-! ## Cylinder intersection (`hittables.rs`, `nearest_points` and
`impl Hittable for Cylinder`)

`nearest_points` builds the 3×3 matrix with columns `[l, n, b]`
(`n = l × b`) and inverts it with `try_inverse().unwrap()`.  The
`unwrap` panics when the matrix is singular; the panic is modelled as
the outer `none` of an `Option`. -/

/-- Determinant of the 3×3 matrix with columns `c1 c2 c3`
(scalar triple product). -/
def det3 (c1 c2 c3 : Vec3) : ℚ := dot c1 (cross c2 c3)

/-- `m⁻¹ * v` for the matrix `m` with columns `c1 c2 c3`, by Cramer's
rule — the exact value `nalgebra`'s inverse-times-vector computes. -/
def solve3 (c1 c2 c3 v : Vec3) : Vec3 :=
  ⟨det3 v c2 c3 / det3 c1 c2 c3,
   det3 c1 v c3 / det3 c1 c2 c3,
   det3 c1 c2 v / det3 c1 c2 c3⟩

/-- `hittables::nearest_points(K, l, A, b)`: closest points between the
line `K + t·l` and the line `A + s·b`.  Returns `none` exactly when the
matrix `[l, l×b, b]` is singular, where the source's
`try_inverse().unwrap()` panics. -/
def nearestPoints (K l A b : Vec3) : Option (ℚ × Vec3 × Vec3 × Vec3) :=
  let n := cross l b
  if det3 l n b = 0 then none
  else
    let t := solve3 l n b (A - K)
    let p1 := K + t.x • l
    let p2 := p1 + t.y • n
    some (t.x, n, p1, p2)

/-- `hittables::Cylinder` (point on the axis, axis direction, radius,
shared material). -/
structure CylQ where
  start : Vec3
  dir : Vec3
  radius : ℚ
  material : MaterialQ
deriving DecidableEq

/-- `Cylinder::hit`: distance test `d < radius` and the strict parameter
window `t_min < t_ray && t_ray < t_max`.  The outer `none` is the panic
propagated from `nearest_points`'s `unwrap`; `some none` is a clean
"no intersection". -/
def cylinderHit (sq : ℚ → ℚ) (cy : CylQ) (r : RayQ) (tmin tmax : ℚ) :
    Option (Option HitRecQ) :=
  (nearestPoints r.orig r.dir cy.start cy.dir).map fun q =>
    if sq (magSq (q.2.2.1 - q.2.2.2)) < cy.radius ∧ tmin < q.1 ∧ q.1 < tmax then
      some (hitRecordNew q.2.2.1 q.2.1 cy.material q.1 r)
    else none

/-- A returned cylinder hit lies strictly inside `(tmin, tmax)`. -/
theorem cylinderHit_t_mem (sq : ℚ → ℚ) (cy : CylQ) (r : RayQ) (tmin tmax : ℚ)
    (rec : HitRecQ) (h : cylinderHit sq cy r tmin tmax = some (some rec)) :
    tmin < rec.t ∧ rec.t < tmax := by
  unfold cylinderHit at h
  cases hnp : nearestPoints r.orig r.dir cy.start cy.dir with
  | none =>
    rw [hnp] at h
    exact absurd h (by simp)
  | some q =>
    rw [hnp, Option.map_some'] at h
    injection h with h
    split_ifs at h with hcond
    injection h with h
    rw [← h]
    exact ⟨hcond.2.1, hcond.2.2⟩

/-- Narrowing the upper bound does not change a successful cylinder
hit. -/
theorem cylinderHit_narrow_some (sq : ℚ → ℚ) (cy : CylQ) (r : RayQ) (tmin c tmax : ℚ)
    (rec : HitRecQ) (hc : c ≤ tmax)
    (h : cylinderHit sq cy r tmin c = some (some rec)) :
    cylinderHit sq cy r tmin tmax = some (some rec) := by
  unfold cylinderHit at h ⊢
  cases hnp : nearestPoints r.orig r.dir cy.start cy.dir with
  | none =>
    rw [hnp] at h
    exact absurd h (by simp)
  | some q =>
    rw [hnp, Option.map_some'] at h
    rw [Option.map_some']
    injection h with h
    split_ifs at h with hcond
    rw [if_pos ⟨hcond.1, hcond.2.1, by linarith [hcond.2.2]⟩, h]

/-- If the cylinder reports no clean hit with upper bound `c` but a
clean hit with upper bound `tmax`, that hit lies at or beyond `c`. -/
theorem cylinderHit_narrow_none (sq : ℚ → ℚ) (cy : CylQ) (r : RayQ) (tmin c tmax : ℚ)
    (rec : HitRecQ) (hnone : cylinderHit sq cy r tmin c = some none)
    (h : cylinderHit sq cy r tmin tmax = some (some rec)) : c ≤ rec.t := by
  unfold cylinderHit at hnone h
  cases hnp : nearestPoints r.orig r.dir cy.start cy.dir with
  | none =>
    rw [hnp] at h
    exact absurd h (by simp)
  | some q =>
    rw [hnp, Option.map_some'] at hnone h
    injection h with h
    injection hnone with hnone
    split_ifs at h with hcond
    injection h with h
    rw [← h]
    split_ifs at hnone with hcond2
    push_neg at hcond2
    exact hcond2 hcond.1 hcond.2.1

/-! ## Scene container (`world.rs`)

`World` stores `Vec<Arc<dyn Hittable>>`; following the spec's design
note, the open trait is embedded as the closed sum of the two
implementors. -/

/-- The closed sum of the `Hittable` implementors. -/
inductive PrimQ where
  | sphere (s : SphereQ)
  | cylinder (c : CylQ)
deriving DecidableEq

/-- `Hittable::hit` dispatch.  `Sphere::hit` never panics, so its result
is wrapped in `some`; `Cylinder::hit` may panic (outer `none`). -/
def objHit (sq : ℚ → ℚ) (o : PrimQ) (r : RayQ) (tmin tmax : ℚ) :
    Option (Option HitRecQ) :=
  match o with
  | .sphere s => some (sphereHit sq s r tmin tmax)
  | .cylinder c => cylinderHit sq c r tmin tmax

/-- The loop body of `World::hit`: fold over the objects, keeping the
closest hit so far and narrowing the upper bound to its `t`
(`closest_so_far`).  A panic from any `object.hit` propagates. -/
def worldHitAux (sq : ℚ → ℚ) (r : RayQ) (tmin : ℚ) :
    List PrimQ → ℚ → Option HitRecQ → Option (Option HitRecQ)
  | [], _, hr => some hr
  | o :: rest, closest, hr =>
    match objHit sq o r tmin closest with
    | none => none
    | some none => worldHitAux sq r tmin rest closest hr
    | some (some nrec) => worldHitAux sq r tmin rest nrec.t (some nrec)

/-- `World::hit(r, t_min, t_max)`: scan all objects starting from
`closest_so_far = t_max` and no record. -/
def worldHit (sq : ℚ → ℚ) (objects : List PrimQ) (r : RayQ) (tmin tmax : ℚ) :
    Option (Option HitRecQ) :=
  worldHitAux sq r tmin objects tmax none

/-- Lifted bound: a clean hit of either primitive lies in
`[tmin, tmax]`. -/
theorem objHit_t_mem (sq : ℚ → ℚ) (o : PrimQ) (r : RayQ) (tmin tmax : ℚ)
    (rec : HitRecQ) (h : objHit sq o r tmin tmax = some (some rec)) :
    tmin ≤ rec.t ∧ rec.t ≤ tmax := by
  cases o with
  | sphere s =>
    unfold objHit at h
    injection h with h
    exact sphereHit_t_mem sq s r tmin tmax rec h
  | cylinder c =>
    have := cylinderHit_t_mem sq c r tmin tmax rec h
    exact ⟨this.1.le, this.2.le⟩

/-- Lifted narrowing: a clean hit found with upper bound `c ≤ tmax` is
also the clean hit found with upper bound `tmax`. -/
theorem objHit_narrow_some (sq : ℚ → ℚ) (o : PrimQ) (r : RayQ) (tmin c tmax : ℚ)
    (rec : HitRecQ) (hsq : ∀ x, 0 ≤ sq x) (hc : c ≤ tmax)
    (h : objHit sq o r tmin c = some (some rec)) :
    objHit sq o r tmin tmax = some (some rec) := by
  cases o with
  | sphere s =>
    unfold objHit at h
    injection h with h
    show some (sphereHit sq s r tmin tmax) = some (some rec)
    exact congrArg some (sphereHit_narrow_some sq s r tmin c tmax rec (hsq _) hc h)
  | cylinder cy =>
    exact cylinderHit_narrow_some sq cy r tmin c tmax rec hc h

/-- Lifted narrowing of a miss: a clean miss with upper bound `c`
pushes any clean hit with upper bound `tmax` to `t ≥ c`. -/
theorem objHit_narrow_none (sq : ℚ → ℚ) (o : PrimQ) (r : RayQ) (tmin c tmax : ℚ)
    (rec : HitRecQ) (hnone : objHit sq o r tmin c = some none)
    (h : objHit sq o r tmin tmax = some (some rec)) : c ≤ rec.t := by
  cases o with
  | sphere s =>
    unfold objHit at hnone h
    injection h with h
    injection hnone with hnone
    exact (sphereHit_narrow_none sq s r tmin c tmax rec hnone h).le
  | cylinder cy =>
    exact cylinderHit_narrow_none sq cy r tmin c tmax rec hnone h

/-- Invariant-carrying correctness of the `World::hit` loop.  Starting
from state `(closest, hr)` with `closest ≤ tmax`, `hr = none` only at
`closest = tmax`, and any stored record within `[tmin, closest]`:
if the loop finishes without panicking, the final record lies in
`[tmin, closest]`, survives from `hr`, and undercuts every clean hit of
every remaining object queried over the full interval. -/
theorem worldHitAux_correct (sq : ℚ → ℚ) (r : RayQ) (tmin tmax : ℚ)
    (hsq : ∀ x, 0 ≤ sq x) :
    ∀ (objs : List PrimQ) (closest : ℚ) (hr res : Option HitRecQ),
      closest ≤ tmax → (hr = none → closest = tmax) →
      (∀ rec0, hr = some rec0 → tmin ≤ rec0.t ∧ rec0.t ≤ closest) →
      worldHitAux sq r tmin objs closest hr = some res →
      ((∀ rec, res = some rec → tmin ≤ rec.t ∧ rec.t ≤ closest) ∧
       (∀ rec0, hr = some rec0 → ∃ rec, res = some rec) ∧
       (∀ o ∈ objs, ∀ rec', objHit sq o r tmin tmax = some (some rec') →
         ∃ rec, res = some rec ∧ rec.t ≤ rec'.t)) := by
  intro objs
  induction objs with
  | nil =>
    intro closest hr res hle hnone hsome hrun
    unfold worldHitAux at hrun
    injection hrun with hrun
    subst hrun
    refine ⟨fun rec hrec => hsome rec hrec, fun rec0 h0 => ⟨rec0, h0⟩, ?_⟩
    intro o ho
    exact absurd ho (List.not_mem_nil o)
  | cons o rest ih =>
    intro closest hr res hle hnone hsome hrun
    unfold worldHitAux at hrun
    cases hstep : objHit sq o r tmin closest with
    | none => rw [hstep] at hrun; exact absurd hrun (by simp)
    | some stepres =>
      rw [hstep] at hrun
      cases stepres with
      | none =>
        -- object `o` reports no hit below `closest`
        have main := ih closest hr res hle hnone hsome hrun
        refine ⟨main.1, main.2.1, ?_⟩
        intro o2 ho2 rec' hfull
        rcases List.mem_cons.mp ho2 with rfl | ho2
        · -- the head object: its full-interval hit lies at `t ≥ closest`
          have hge : closest ≤ rec'.t := objHit_narrow_none sq o2 r tmin closest tmax rec' hstep hfull
          cases hhr : hr with
          | none =>
            -- then `closest = tmax` and the narrowed query was the full query
            rw [hnone hhr] at hstep
            rw [hstep] at hfull
            exact absurd hfull (by simp)
          | some rec0 =>
            obtain ⟨rec, hres⟩ := main.2.1 rec0 hhr
            exact ⟨rec, hres, le_trans (main.1 rec hres).2 hge⟩
        · exact main.2.2 o2 ho2 rec' hfull
      | some nrec =>
        -- object `o` reports a hit; it becomes the closest so far
        have hmem := objHit_t_mem sq o r tmin closest nrec hstep
        have main := ih nrec.t (some nrec) res (le_trans hmem.2 hle)
          (by intro habs; exact absurd habs (by simp))
          (by intro rec0 h0; injection h0 with h0; rw [← h0]; exact ⟨hmem.1, le_refl _⟩)
          hrun
        refine ⟨fun rec hrec => ⟨(main.1 rec hrec).1, le_trans (main.1 rec hrec).2 hmem.2⟩,
          fun rec0 h0 => main.2.1 nrec rfl, ?_⟩
        intro o2 ho2 rec' hfull
        rcases List.mem_cons.mp ho2 with rfl | ho2
        · -- the head object: the narrowed hit IS the full-interval hit
          have hsame := objHit_narrow_some sq o2 r tmin closest tmax nrec hsq hle hstep
          rw [hsame] at hfull
          injection hfull with hfull
          injection hfull with hfull
          obtain ⟨rec, hres⟩ := main.2.1 nrec rfl
          refine ⟨rec, hres, ?_⟩
          rw [← hfull]
          exact (main.1 rec hres).2
        · exact main.2.2 o2 ho2 rec' hfull

/-- C1 (amended): when the scan completes without panicking, the
returned hit's `t` lies in the closed interval `[tMin, tMax]`, and it
undercuts the clean hit of every primitive queried over the full
interval (so whenever some primitive hits, a hit with globally minimal
`t` is returned). -/
theorem worldHit_nearest (sq : ℚ → ℚ) (objects : List PrimQ) (r : RayQ)
    (tmin tmax : ℚ) (hsq : ∀ x, 0 ≤ sq x) (res : Option HitRecQ)
    (hres : worldHit sq objects r tmin tmax = some res) :
    (∀ rec, res = some rec → tmin ≤ rec.t ∧ rec.t ≤ tmax) ∧
    (∀ o ∈ objects, ∀ rec', objHit sq o r tmin tmax = some (some rec') →
      ∃ rec, res = some rec ∧ rec.t ≤ rec'.t) := by
  have main := worldHitAux_correct sq r tmin tmax hsq objects tmax none res
    (le_refl _) (fun _ => rfl) (fun rec0 h0 => by simp at h0) hres
  exact ⟨main.1, main.2.2⟩

/-- A square-root oracle exact on the one value these concrete scenes
need (`sqrt 1 = 1`) and nonnegative everywhere. -/
def sqUnit : ℚ → ℚ := fun x => if x = 1 then 1 else 0

theorem sqUnit_nonneg : ∀ x, 0 ≤ sqUnit x := by
  intro x
  unfold sqUnit
  split <;> norm_num

/-- Concrete material shared by the concrete test scenes. -/
def matGray : MaterialQ := .lambertian ⟨1/2, 1/2, 1/2⟩

/-- Unit sphere at the origin. -/
def sphereW : SphereQ := ⟨⟨0, 0, 0⟩, 1, matGray⟩

/-- Ray from `(2,0,0)` toward the origin; it meets `sphereW` at `t = 1`
and `t = 3`. -/
def rayW : RayQ := ⟨⟨2, 0, 0⟩, ⟨-1, 0, 0⟩⟩

/-- The record `Sphere::hit` produces for `rayW` against `sphereW` at
`t = 1`. -/
def recW : HitRecQ := ⟨⟨1, 0, 0⟩, ⟨1, 0, 0⟩, matGray, 1, true⟩

/-- C1 counterexample: with `tMin = 1`, the scan returns the hit at
`t = 1`, which lies outside the claimed half-open interval
`(tMin, tMax] = (1, 10]`. -/
theorem worldHit_interval_cex :
    Option.map (Option.map HitRecQ.t)
        (worldHit sqUnit [.sphere sphereW] rayW 1 10) = some (some 1) ∧
      ¬ (1 < (1 : ℚ) ∧ (1 : ℚ) ≤ 10) := by
  constructor
  · norm_num [worldHit, worldHitAux, objHit, sphereHit, sphT1, sphT2, sphDisc,
      sphHalfB, sphA, sphC, sphOC, sqUnit, sphereW, rayW, mkSphereRec,
      hitRecordNew, RayQ.at, magSq, dot, vdiv, matGray]
  · norm_num

/-- C1 witness: the amended theorem applied to the one-sphere scene. -/
theorem worldHit_nearest_witness : (1 : ℚ) ≤ recW.t ∧ recW.t ≤ 10 :=
  (worldHit_nearest sqUnit [.sphere sphereW] rayW 1 10 sqUnit_nonneg
    (some recW)
    (by norm_num [worldHit, worldHitAux, objHit, sphereHit, sphT1, sphT2,
      sphDisc, sphHalfB, sphA, sphC, sphOC, sqUnit, sphereW, rayW, mkSphereRec,
      hitRecordNew, RayQ.at, magSq, dot, vdiv, matGray, recW])).1 recW rfl

/-! ## C2: the sphere root-selection rule -/

/-- The root `Sphere::hit` would return according to the claim's words:
the smaller root if it lies in the half-open interval `(tMin, tMax]`,
else the larger root if it lies there, else nothing. -/
def sphereHitClaimT (sq : ℚ → ℚ) (s : SphereQ) (r : RayQ) (tmin tmax : ℚ) : Option ℚ :=
  if sphDisc s r < 0 then none
  else if tmin < sphT1 sq s r ∧ sphT1 sq s r ≤ tmax then some (sphT1 sq s r)
  else if tmin < sphT2 sq s r ∧ sphT2 sq s r ≤ tmax then some (sphT2 sq s r)
  else none

/-- C2 counterexample: with `tMin = 1` the claim selects the larger
root `3` (the smaller root `1` is outside `(1, 10]`), but the code
accepts the smaller root `t = 1`. -/
theorem sphereHit_halfopen_cex :
    sphereHitClaimT sqUnit sphereW rayW 1 10 = some 3 ∧
      Option.map HitRecQ.t (sphereHit sqUnit sphereW rayW 1 10) = some 1 := by
  constructor
  · norm_num [sphereHitClaimT, sphT1, sphT2, sphDisc, sphHalfB, sphA, sphC,
      sphOC, sqUnit, sphereW, rayW, magSq, dot]
  · norm_num [sphereHit, sphT1, sphT2, sphDisc, sphHalfB, sphA, sphC, sphOC,
      sqUnit, sphereW, rayW, mkSphereRec, hitRecordNew, RayQ.at, magSq, dot,
      vdiv, matGray]

/-- Any root the code returns satisfies the sphere's implicit equation,
given that the oracle squares back to the discriminant. -/
theorem sphere_root_on_sphere (sq : ℚ → ℚ) (s : SphereQ) (r : RayQ)
    (hsqex : sq (sphDisc s r) * sq (sphDisc s r) = sphDisc s r)
    (ha : sphA r ≠ 0) (t : ℚ)
    (ht : t = sphT1 sq s r ∨ t = sphT2 sq s r) :
    magSq (r.at t - s.center) = s.radius * s.radius := by
  have hexp : magSq (r.at t - s.center) =
      sphA r * (t * t) + 2 * sphHalfB s r * t +
        (sphC s r + s.radius * s.radius) := by
    simp only [magSq, RayQ.at, sphA, sphHalfB, sphC, sphOC, dot, vadd_x,
      vadd_y, vadd_z, vsub_x, vsub_y, vsub_z, vsmul_x, vsmul_y, vsmul_z]
    ring
  have hkey : sphA r * (t * t) + 2 * sphHalfB s r * t + sphC s r = 0 := by
    have hd : sphDisc s r = sphHalfB s r * sphHalfB s r - sphA r * sphC s r := rfl
    rcases ht with rfl | rfl
    · unfold sphT1
      field_simp
      nlinarith [hsqex, hd]
    · unfold sphT2
      field_simp
      nlinarith [hsqex, hd]
  rw [hexp]
  linarith

@[simp] theorem mkSphereRec_p (s : SphereQ) (r : RayQ) (t : ℚ) :
    (mkSphereRec s r t).p = r.at t := rfl

/-- C2 (amended): `Sphere::hit` rejects a negative discriminant;
otherwise it returns the smaller root if that lies in the closed
interval `[tMin, tMax]`, else the larger root if that lies there, and
`none` when neither qualifies.  The rejection and selection clauses are
unconditional (the code never consults the square root on a negative
discriminant); additionally, when the oracle squares back to the
discriminant and the ray direction is nonzero, every returned hit point
lies on the sphere, confirming the roots solve the quadratic. -/
theorem sphereHit_root_selection (sq : ℚ → ℚ) (s : SphereQ) (r : RayQ)
    (tmin tmax : ℚ) :
    (sphDisc s r < 0 → sphereHit sq s r tmin tmax = none) ∧
    (0 ≤ sphDisc s r →
      (tmin ≤ sphT1 sq s r ∧ sphT1 sq s r ≤ tmax →
        sphereHit sq s r tmin tmax = some (mkSphereRec s r (sphT1 sq s r))) ∧
      (¬(tmin ≤ sphT1 sq s r ∧ sphT1 sq s r ≤ tmax) →
        (tmin ≤ sphT2 sq s r ∧ sphT2 sq s r ≤ tmax →
          sphereHit sq s r tmin tmax = some (mkSphereRec s r (sphT2 sq s r))) ∧
        (¬(tmin ≤ sphT2 sq s r ∧ sphT2 sq s r ≤ tmax) →
          sphereHit sq s r tmin tmax = none))) ∧
    (sq (sphDisc s r) * sq (sphDisc s r) = sphDisc s r → sphA r ≠ 0 →
      ∀ rec, sphereHit sq s r tmin tmax = some rec →
        magSq (rec.p - s.center) = s.radius * s.radius) := by
  have hsel : ∀ t : ℚ, ¬(tmin ≤ t ∧ t ≤ tmax) → (t < tmin ∨ tmax < t) := by
    intro t h
    rcases not_and_or.mp h with h | h
    · exact Or.inl (not_le.mp h)
    · exact Or.inr (not_le.mp h)
  refine ⟨?_, ?_, ?_⟩
  · intro hneg
    unfold sphereHit
    rw [if_pos hneg]
  · intro hd
    refine ⟨?_, ?_⟩
    · intro hacc
      unfold sphereHit
      rw [if_neg (not_lt.mpr hd), if_neg (by push_neg; exact hacc)]
    · intro hrej
      refine ⟨?_, ?_⟩
      · intro hacc2
        unfold sphereHit
        rw [if_neg (not_lt.mpr hd), if_pos (hsel _ hrej),
          if_neg (by push_neg; exact hacc2)]
      · intro hrej2
        unfold sphereHit
        rw [if_neg (not_lt.mpr hd), if_pos (hsel _ hrej), if_pos (hsel _ hrej2)]
  · intro hsqex ha rec hrec
    unfold sphereHit at hrec
    split_ifs at hrec with h1 h2 h3
    · injection hrec with hrec
      rw [← hrec, mkSphereRec_p]
      exact sphere_root_on_sphere sq s r hsqex ha _ (Or.inr rfl)
    · injection hrec with hrec
      rw [← hrec, mkSphereRec_p]
      exact sphere_root_on_sphere sq s r hsqex ha _ (Or.inl rfl)

/-- C2 witness: a ray that misses the sphere (discriminant `−3`) is
rejected through the unconditional negative-discriminant clause; for
the concrete sphere and ray with roots `1` and `3` the smaller root is
returned, and its hit point lies on the sphere. -/
theorem sphereHit_root_selection_witness :
    sphereHit sqUnit sphereW ⟨⟨2, 0, 0⟩, ⟨0, 1, 0⟩⟩ 0 10 = none ∧
    sphereHit sqUnit sphereW rayW 0 10 =
      some (mkSphereRec sphereW rayW (sphT1 sqUnit sphereW rayW)) ∧
    magSq ((mkSphereRec sphereW rayW (sphT1 sqUnit sphereW rayW)).p -
        sphereW.center) = sphereW.radius * sphereW.radius := by
  have hmiss := (sphereHit_root_selection sqUnit sphereW
    ⟨⟨2, 0, 0⟩, ⟨0, 1, 0⟩⟩ 0 10).1
    (by norm_num [sphDisc, sphHalfB, sphA, sphC, sphOC, sphereW, magSq, dot])
  have main := sphereHit_root_selection sqUnit sphereW rayW 0 10
  have hsel := (main.2.1 (by norm_num [sphDisc, sphHalfB, sphA, sphC, sphOC,
    sphereW, rayW, magSq, dot])).1
    (by norm_num [sphT1, sphDisc, sphHalfB, sphA, sphC, sphOC, sqUnit,
      sphereW, rayW, magSq, dot])
  refine ⟨hmiss, hsel, main.2.2 ?_ ?_ _ hsel⟩
  · norm_num [sqUnit, sphDisc, sphHalfB, sphA, sphC, sphOC, sphereW, rayW,
      magSq, dot]
  · norm_num [sphA, rayW, magSq]

/-! ## C6: normal orientation in `HitRecord::new` -/

/-- C6: every constructed `HitRecord` stores `front_face` exactly when
the ray direction opposes the outward normal, keeps the outward normal
in that case and negates it otherwise — so the stored normal's dot
product with the ray direction is never positive. -/
theorem hitRecord_normal_orientation (p n : Vec3) (m : MaterialQ) (t : ℚ)
    (r : RayQ) :
    ((hitRecordNew p n m t r).front_face = true ↔ dot r.dir n < 0) ∧
    (hitRecordNew p n m t r).normal = (if dot r.dir n < 0 then n else -n) ∧
    dot r.dir (hitRecordNew p n m t r).normal ≤ 0 := by
  have hneg : dot r.dir (-n) = -dot r.dir n := by
    simp only [dot, vneg_x, vneg_y, vneg_z]
    ring
  unfold hitRecordNew
  by_cases h : dot r.dir n < 0
  · rw [if_pos h]
    exact ⟨by simp [h], by rw [if_pos h], le_of_lt h⟩
  · rw [if_neg h]
    refine ⟨by simp [h], by rw [if_neg h], ?_⟩
    show dot r.dir (-n) ≤ 0
    rw [hneg]
    linarith [not_lt.mp h]

/-! ## Materials (`material.rs`)

The `&mut SmallRng` threading is modelled by explicit draw streams: the
`vecs` stream holds the successive results of `random_in_unit_sphere`
(the rejection loop's accepted sample), the `floats` stream the
successive results of the uniform `[0,1)` draw; `vi`/`fi` are the read
cursors. -/

/-- Random source: streams of accepted draws plus read cursors. -/
structure RngQ where
  vecs : ℕ → Vec3
  floats : ℕ → ℚ
  vi : ℕ
  fi : ℕ

/-- Draw the next `random_in_unit_sphere` result. -/
def RngQ.nextVec (rng : RngQ) : Vec3 × RngQ :=
  (rng.vecs rng.vi, ⟨rng.vecs, rng.floats, rng.vi + 1, rng.fi⟩)

/-- Draw the next uniform `[0,1)` result. -/
def RngQ.nextFloat (rng : RngQ) : ℚ × RngQ :=
  (rng.floats rng.fi, ⟨rng.vecs, rng.floats, rng.vi, rng.fi + 1⟩)

/-- `Dielectric::reflectance` exactly as written in the source:
`r0sq + (1.0 - r0) * (1.0 - cosine).powf(5.0)` — note the unsquared
`r0` inside the second factor. -/
def reflectance (cosine ref_idx : ℚ) : ℚ :=
  let r0 := (1 - ref_idx) / (1 + ref_idx)
  let r0sq := r0 * r0
  r0sq + (1 - r0) * (1 - cosine) ^ 5

/-- Modelled from the spec's words (§4.4): the Schlick approximation
`r0 + (1 − r0)(1 − cosθ)⁵` with `r0 = ((1 − ir)/(1 + ir))²`. -/
def schlickSpec (cosine ref_idx : ℚ) : ℚ :=
  let r0 := ((1 - ref_idx) / (1 + ref_idx)) ^ 2
  r0 + (1 - r0) * (1 - cosine) ^ 5

/-- `Material::scatter` dispatch over the three variants, mirroring
`material.rs` (`random_unit_vector` is a drawn unit-sphere sample
normalized; the uniform draw happens only when `cannot_refract` is
false, matching the short-circuit `||`). -/
def scatter (sq : ℚ → ℚ) (m : MaterialQ) (ray : RayQ) (rec : HitRecQ)
    (rng : RngQ) : Option (Vec3 × RayQ) × RngQ :=
  match m with
  | .lambertian albedo =>
    let vr := rng.nextVec
    let sd := rec.normal + normalizeV sq vr.1
    (some (albedo, ⟨rec.p, if nearZero sd then rec.normal else sd⟩), vr.2)
  | .metal albedo fuzz =>
    let reflected := reflect (normalizeV sq ray.dir) rec.normal
    if 0 < dot reflected rec.normal then
      let vr := rng.nextVec
      (some (albedo, ⟨rec.p, reflected + fuzz • vr.1⟩), vr.2)
    else (none, rng)
  | .dielectric ir =>
    let ratio := if rec.front_face then 1 / ir else ir
    let unit := normalizeV sq ray.dir
    let cos_theta := min (dot (-unit) rec.normal) 1
    let sin_theta := sq (1 - cos_theta * cos_theta)
    if 1 < ratio * sin_theta then
      (some (⟨1, 1, 1⟩, ⟨rec.p, reflect unit rec.normal⟩), rng)
    else
      let ur := rng.nextFloat
      if ur.1 < reflectance cos_theta ratio then
        (some (⟨1, 1, 1⟩, ⟨rec.p, reflect unit rec.normal⟩), ur.2)
      else
        (some (⟨1, 1, 1⟩, ⟨rec.p, refract sq unit rec.normal ratio⟩), ur.2)

/-- C7: `Lambertian::scatter` always scatters: attenuation is the
albedo and the direction is `normal + random_unit_vector`, falling back
to the normal itself when that sum is near zero (all components below
`1e-8` in absolute value). -/
theorem lambertianScatter_total (sq : ℚ → ℚ) (albedo : Vec3) (ray : RayQ)
    (rec : HitRecQ) (rng : RngQ) :
    scatter sq (.lambertian albedo) ray rec rng =
      (some (albedo, ⟨rec.p,
        if nearZero (rec.normal + normalizeV sq (rng.vecs rng.vi)) then
          rec.normal
        else rec.normal + normalizeV sq (rng.vecs rng.vi)⟩),
       ⟨rng.vecs, rng.floats, rng.vi + 1, rng.fi⟩) := rfl

/-- C3 (amended): `Metal::scatter` absorbs exactly when the
*unperturbed* reflection of the normalized incoming direction has
non-positive dot product with the hit normal; the fuzz perturbation is
applied only to the direction of the returned ray, after that test. -/
theorem metalScatter_absorption (sq : ℚ → ℚ) (albedo : Vec3) (fuzz : ℚ)
    (ray : RayQ) (rec : HitRecQ) (rng : RngQ) :
    ((scatter sq (.metal albedo fuzz) ray rec rng).1 = none ↔
      dot (reflect (normalizeV sq ray.dir) rec.normal) rec.normal ≤ 0) ∧
    (0 < dot (reflect (normalizeV sq ray.dir) rec.normal) rec.normal →
      scatter sq (.metal albedo fuzz) ray rec rng =
        (some (albedo, ⟨rec.p,
          reflect (normalizeV sq ray.dir) rec.normal + fuzz • rng.vecs rng.vi⟩),
         ⟨rng.vecs, rng.floats, rng.vi + 1, rng.fi⟩)) := by
  by_cases h : 0 < dot (reflect (normalizeV sq ray.dir) rec.normal) rec.normal
  · constructor
    · show ((if 0 < dot (reflect (normalizeV sq ray.dir) rec.normal) rec.normal
          then _ else _) : Option (Vec3 × RayQ) × RngQ).1 = none ↔ _
      rw [if_pos h]
      simp [not_le.mpr h]
    · intro _
      show (if 0 < dot (reflect (normalizeV sq ray.dir) rec.normal) rec.normal
          then _ else _) = _
      rw [if_pos h]
      rfl
  · constructor
    · show ((if 0 < dot (reflect (normalizeV sq ray.dir) rec.normal) rec.normal
          then _ else _) : Option (Vec3 × RayQ) × RngQ).1 = none ↔ _
      rw [if_neg h]
      simp [not_lt.mp h]
    · intro hcontra
      exact absurd hcontra h

/-- A square-root oracle exact on the one value the metal scenes need
(`sqrt 25 = 5`). -/
def sqC : ℚ → ℚ := fun x => if x = 25 then 5 else 0

/-- Incoming ray with direction `(3,-4,0)` (norm 5). -/
def rayC : RayQ := ⟨⟨0, 0, 0⟩, ⟨3, -4, 0⟩⟩

/-- Hit at the origin with upward normal. -/
def recC : HitRecQ := ⟨⟨0, 0, 0⟩, ⟨0, 1, 0⟩, matGray, 1, true⟩

/-- Random stream whose unit-sphere draw is `(0,-9/10,0)` (length
`9/10 < 1`, a valid rejection-sampling result). -/
def rngC : RngQ := ⟨fun _ => ⟨0, -9/10, 0⟩, fun _ => 0, 0, 0⟩

/-- C3 counterexample: with fuzz `1`, the code scatters the ray with
perturbed direction `(3/5, -1/10, 0)` even though that direction points
into the surface (dot with the normal is `-1/10 ≤ 0`), where the claim
demands absorption (`none`). -/
theorem metalScatter_claim_cex :
    (scatter sqC (.metal ⟨1, 1, 1⟩ 1) rayC recC rngC).1 =
        some (⟨1, 1, 1⟩, ⟨⟨0, 0, 0⟩, ⟨3/5, -1/10, 0⟩⟩) ∧
      dot ⟨3/5, -1/10, 0⟩ recC.normal ≤ 0 := by
  constructor
  · norm_num [scatter, reflect, normalizeV, vdiv, magSq, dot, sqC, rayC, recC,
      rngC, RngQ.nextVec, matGray]
  · norm_num [dot, recC]

/-- C3 witness: the amended theorem applied at the concrete metal
scene. -/
theorem metalScatter_absorption_witness :
    scatter sqC (.metal ⟨1, 1, 1⟩ 1) rayC recC rngC =
      (some (⟨1, 1, 1⟩, ⟨recC.p,
        reflect (normalizeV sqC rayC.dir) recC.normal + (1 : ℚ) • rngC.vecs rngC.vi⟩),
       ⟨rngC.vecs, rngC.floats, rngC.vi + 1, rngC.fi⟩) :=
  (metalScatter_absorption sqC ⟨1, 1, 1⟩ 1 rayC recC rngC).2
    (by norm_num [reflect, normalizeV, vdiv, magSq, dot, sqC, rayC, recC,
      matGray])

/-- C4: at `ir = 3/2`, `cosθ = 0` the code's `reflectance` yields
`31/25` — strictly greater than `1`, impossible for a physical Fresnel
reflectance — while the Schlick formula stated by the spec yields `1`.
The code mixes the squared base `r0sq` with the unsquared `r0`. -/
theorem reflectance_schlick_divergence :
    reflectance 0 (3/2) = 31/25 ∧ schlickSpec 0 (3/2) = 1 ∧
      (31/25 : ℚ) ≠ 1 ∧ 1 < reflectance 0 (3/2) := by
  refine ⟨?_, ?_, ?_, ?_⟩ <;> norm_num [reflectance, schlickSpec]

/-! ## C5: recursive light transport (`main::ray_color`) -/

/-- `main::ray_color`: recursion on the bounce budget; black at budget
0; scene query over `(0.001, 1000.0)`; background blend on a miss;
black on absorption; otherwise attenuation times the recursive color.
A `World::hit` panic (cylinder unwrap) propagates as the outer
`none`. -/
def rayColor (sq : ℚ → ℚ) (objects : List PrimQ) (r : RayQ) (depth : ℕ)
    (rng : RngQ) : Option (Vec3 × RngQ) :=
  match depth with
  | 0 => some (⟨0, 0, 0⟩, rng)
  | d + 1 =>
    match worldHit sq objects r (1/1000) 1000 with
    | none => none
    | some (some hitrecord) =>
      match scatter sq hitrecord.material r hitrecord rng with
      | (some (attenuation, scatterray), rng2) =>
        match rayColor sq objects scatterray d rng2 with
        | none => none
        | some (col, rng3) => some (componentMul attenuation col, rng3)
      | (none, rng2) => some (⟨0, 0, 0⟩, rng2)
    | some none =>
      let t := (1/2 : ℚ) * ((normalizeV sq r.dir).y + 1)
      some ((1 - t) • (⟨1, 1, 1⟩ : Vec3) + t • (⟨1/2, 7/10, 1⟩ : Vec3), rng)

/-- The background gradient formula of the spec: blend white with sky
blue `(0.5, 0.7, 1.0)` by `t = 0.5 × (unit_direction.y + 1)`. -/
def background (sq : ℚ → ℚ) (r : RayQ) : Vec3 :=
  (1 - (1/2 : ℚ) * ((normalizeV sq r.dir).y + 1)) • (⟨1, 1, 1⟩ : Vec3) +
    ((1/2 : ℚ) * ((normalizeV sq r.dir).y + 1)) • (⟨1/2, 7/10, 1⟩ : Vec3)

/-- C5: the four clauses of `ray_color` — black at exhausted budget;
the closed-form background on a miss in `(0.001, 1000.0)`; black when
the material absorbs; otherwise the component-wise product of the
attenuation with the recursive color at budget − 1. -/
theorem rayColor_clauses (sq : ℚ → ℚ) (objects : List PrimQ) (r : RayQ)
    (rng : RngQ) :
    rayColor sq objects r 0 rng = some (⟨0, 0, 0⟩, rng) ∧
    (∀ d, worldHit sq objects r (1/1000) 1000 = some none →
      rayColor sq objects r (d + 1) rng = some (background sq r, rng)) ∧
    (∀ d hitrecord rng2,
      worldHit sq objects r (1/1000) 1000 = some (some hitrecord) →
      scatter sq hitrecord.material r hitrecord rng = (none, rng2) →
      rayColor sq objects r (d + 1) rng = some (⟨0, 0, 0⟩, rng2)) ∧
    (∀ d hitrecord att sray rng2,
      worldHit sq objects r (1/1000) 1000 = some (some hitrecord) →
      scatter sq hitrecord.material r hitrecord rng = (some (att, sray), rng2) →
      rayColor sq objects r (d + 1) rng =
        Option.map (fun cr => (componentMul att cr.1, cr.2))
          (rayColor sq objects sray d rng2)) := by
  refine ⟨rfl, ?_, ?_, ?_⟩
  · intro d hw
    unfold rayColor
    simp only [hw]
    rfl
  · intro d hitrecord rng2 hw hs
    unfold rayColor
    simp only [hw, hs]
  · intro d hitrecord att sray rng2 hw hs
    conv_lhs => unfold rayColor
    simp only [hw, hs]
    cases hrec : rayColor sq objects sray d rng2 with
    | none => rfl
    | some pr =>
      obtain ⟨col, rng3⟩ := pr
      rfl

/-- The all-miss random stream (never consulted on a miss). -/
def rngW : RngQ := ⟨fun _ => ⟨0, 0, 0⟩, fun _ => 0, 0, 0⟩

/-- Ray with direction `(0,4,3)` (norm 5), missing the empty scene. -/
def rayBg : RayQ := ⟨⟨0, 0, 0⟩, ⟨0, 4, 3⟩⟩

/-- C5 witness: in the empty scene the budget-5 color is the background
blend, and at budget 0 the color is black. -/
theorem rayColor_clauses_witness :
    rayColor sqC [] rayBg 5 rngW = some (background sqC rayBg, rngW) ∧
      rayColor sqC [] rayBg 0 rngW = some (⟨0, 0, 0⟩, rngW) :=
  ⟨(rayColor_clauses sqC [] rayBg rngW).2.1 4 rfl,
   (rayColor_clauses sqC [] rayBg rngW).1⟩

/-! ## C9: parallel ray and cylinder axis -/

/-- Columns `l = k·b`, `l×b`, `b` are linearly dependent: the
determinant of the spanning matrix vanishes. -/
theorem nearestPoints_parallel (K A b : Vec3) (k : ℚ) :
    nearestPoints K (k • b) A b = none := by
  have hdet : det3 (k • b) (cross (k • b) b) b = 0 := by
    simp only [det3, cross, dot, vsmul_x, vsmul_y, vsmul_z]
    ring
  unfold nearestPoints
  simp only [hdet, if_pos]

/-- C9: for a ray whose direction is any scalar multiple of the
cylinder's axis direction, the 3×3 system is singular, so
`Cylinder::hit` does not return a clean "no intersection"
(`some none`): the `try_inverse().unwrap()` panic (`none`) is
reached. -/
theorem cylinderHit_parallel_panics (sq : ℚ → ℚ) (K A b : Vec3) (k : ℚ)
    (cyradius : ℚ) (m : MaterialQ) (tmin tmax : ℚ) :
    cylinderHit sq ⟨A, b, cyradius, m⟩ ⟨K, k • b⟩ tmin tmax = none := by
  unfold cylinderHit
  show Option.map _ (nearestPoints K (k • b) A b) = none
  rw [nearestPoints_parallel]
  rfl

/-! ## C8: `camera::CameraBuilder::build` -/

/-- `camera::CameraBuilder`: the seven optional raw parameters.  The
source's `aspect_ratio` field is called `aspect` here. -/
structure CameraBuilderQ where
  lookfrom : Option Vec3
  lookat : Option Vec3
  vup : Option Vec3
  vfov : Option ℚ
  aspect : Option ℚ
  aperture : Option ℚ
  focus_dist : Option ℚ
deriving DecidableEq

/-- `CameraBuilder::build`: thread the seven fields through the `?`
operator into `Camera::new` (abstracted as `mk`, so that the theorem
can state that exactly the stored values — and nothing else — reach the
constructor). -/
def cameraBuild {γ : Type} (mk : Vec3 → Vec3 → Vec3 → ℚ → ℚ → ℚ → ℚ → γ)
    (b : CameraBuilderQ) : Option γ := do
  let lf ← b.lookfrom
  let la ← b.lookat
  let vu ← b.vup
  let vf ← b.vfov
  let ar ← b.aspect
  let ap ← b.aperture
  let fd ← b.focus_dist
  pure (mk lf la vu vf ar ap fd)

/-- C8: `build` returns nothing exactly when one of the seven required
fields is unset, and otherwise hands exactly the stored values to the
camera constructor. -/
theorem cameraBuilder_build_spec {γ : Type}
    (mk : Vec3 → Vec3 → Vec3 → ℚ → ℚ → ℚ → ℚ → γ) (b : CameraBuilderQ) :
    (cameraBuild mk b = none ↔
      b.lookfrom = none ∨ b.lookat = none ∨ b.vup = none ∨ b.vfov = none ∨
        b.aspect = none ∨ b.aperture = none ∨ b.focus_dist = none) ∧
    (∀ lf la vu vf ar ap fd,
      b.lookfrom = some lf → b.lookat = some la → b.vup = some vu →
      b.vfov = some vf → b.aspect = some ar → b.aperture = some ap →
      b.focus_dist = some fd →
      cameraBuild mk b = some (mk lf la vu vf ar ap fd)) := by
  obtain ⟨lf, la, vu, vf, ar, ap, fd⟩ := b
  constructor
  · cases lf <;> cases la <;> cases vu <;> cases vf <;> cases ar <;>
      cases ap <;> cases fd <;> simp [cameraBuild]
  · intro lf2 la2 vu2 vf2 ar2 ap2 fd2 h1 h2 h3 h4 h5 h6 h7
    cases h1
    cases h2
    cases h3
    cases h4
    cases h5
    cases h6
    cases h7
    rfl

/-- The builder state `scene_cylinder` sets up in `main.rs` (with the
aspect filled in from the command line). -/
def builderW : CameraBuilderQ :=
  ⟨some ⟨0, 0, 1⟩, some ⟨0, 0, -1⟩, some ⟨0, 1, 0⟩, some 90, some (16/9),
   some 0, some 10⟩

/-- C8 witness: with all seven fields set, `build` passes exactly the
stored values through. -/
theorem cameraBuilder_build_spec_witness :
    cameraBuild (fun lf la vu vf ar ap fd => (lf, la, vu, vf, ar, ap, fd))
      builderW =
      some (⟨0, 0, 1⟩, ⟨0, 0, -1⟩, ⟨0, 1, 0⟩, 90, 16/9, 0, 10) :=
  (cameraBuilder_build_spec (fun lf la vu vf ar ap fd =>
      (lf, la, vu, vf, ar, ap, fd)) builderW).2
    ⟨0, 0, 1⟩ ⟨0, 0, -1⟩ ⟨0, 1, 0⟩ 90 (16/9) 0 10 rfl rfl rfl rfl rfl rfl rfl

/-! ## C10: `main::parse_aspect_ratio`

`str::split` is modelled by a structural split on a separator
character, and `parse::<f64>()` by a parser for the finite decimal
subset of Rust float syntax (`inf`/`NaN`, unrepresentable in ℚ, are not
modelled; no claim depends on them). -/

/-- `str::split(sep)`: the list of fields; never empty (an empty input
yields one empty field, as in Rust). -/
def splitOnChar (sep : Char) : List Char → List (List Char)
  | [] => [[]]
  | c :: rest =>
    match splitOnChar sep rest with
    | [] => [[c]]
    | acc :: rs => if c = sep then [] :: acc :: rs else (c :: acc) :: rs

/-- Numeric value of a digit string (most significant digit first). -/
def digitsVal (ds : List Char) : ℕ :=
  ds.foldl (fun a c => 10 * a + (c.toNat - 48)) 0

/-- All characters are ASCII digits. -/
def isDigits (ds : List Char) : Bool := ds.all Char.isDigit

/-- Split off the part after the first `e`/`E`, if any. -/
def splitExponent : List Char → List Char × Option (List Char)
  | [] => ([], none)
  | c :: rest =>
    if c = 'e' ∨ c = 'E' then ([], some rest)
    else
      let r := splitExponent rest
      (c :: r.1, r.2)

/-- Unsigned decimal mantissa: digits with an optional dot and at least
one digit overall (`5.` and `.5` are legal, `.` alone is not) — the
shape Rust `f64::from_str` accepts for finite decimal numbers. -/
def parseMantissa (cs : List Char) : Option ℚ :=
  match splitOnChar '.' cs with
  | [ip] =>
    if ip ≠ [] ∧ isDigits ip then some ((digitsVal ip : ℕ) : ℚ) else none
  | [ip, fp] =>
    if (ip ≠ [] ∨ fp ≠ []) ∧ isDigits ip ∧ isDigits fp then
      some (((digitsVal ip : ℕ) : ℚ) +
        ((digitsVal fp : ℕ) : ℚ) / (10 : ℚ) ^ fp.length)
    else none
  | _ => none

/-- Optionally signed exponent digits. -/
def parseExpPart (cs : List Char) : Option ℤ :=
  match cs with
  | '+' :: t => if t ≠ [] ∧ isDigits t then some ((digitsVal t : ℕ) : ℤ) else none
  | '-' :: t => if t ≠ [] ∧ isDigits t then some (-((digitsVal t : ℕ) : ℤ)) else none
  | t => if t ≠ [] ∧ isDigits t then some ((digitsVal t : ℕ) : ℤ) else none

/-- Modelled from the source's `parse::<f64>()`, restricted to its
finite decimal syntax: optional sign, mantissa, optional `e`/`E`
exponent. -/
def parseF64L (cs : List Char) : Option ℚ :=
  let sgndrop : Bool × List Char :=
    match cs with
    | '-' :: t => (true, t)
    | '+' :: t => (false, t)
    | t => (false, t)
  let applySign : ℚ → ℚ := fun v => if sgndrop.1 then -v else v
  match splitExponent sgndrop.2 with
  | (m, none) => (parseMantissa m).map applySign
  | (m, some e) => do
    let mv ← parseMantissa m
    let ev ← parseExpPart e
    pure (applySign (mv * (10 : ℚ) ^ ev))

/-- `main::parse_aspect_ratio` (the source calls it
`parse_aspect_ratio`): split on `:`, parse the first two fields as
floats, return `w / h`; fields beyond the second are never consulted,
and the height is not checked against zero or negative values. -/
def parseAspect (s : String) : Except String ℚ :=
  match splitOnChar ':' s.toList with
  | [] => .error "aspect ratio format is <w>:<h>"
  | w :: rest =>
    match parseF64L w with
    | none => .error "aspect ratio format is <w>:<h>"
    | some wv =>
      match rest with
      | [] => .error "aspect ratio format is <w>:<h>"
      | h :: _ =>
        match parseF64L h with
        | none => .error "aspect ratio format is <w>:<h>"
        | some hv => .ok (wv / hv)

/-- C10: `parse_aspect_ratio` returns `Ok(w/h)` whenever the first two
`:`-separated fields parse as numbers — regardless of any further
fields and without rejecting zero or negative heights — and errors
exactly when there are fewer than two fields or one of the first two
fails to parse. -/
theorem parseAspect_spec (s : String) :
    (∀ w h : ℚ,
      (splitOnChar ':' s.toList).head?.bind parseF64L = some w →
      ((splitOnChar ':' s.toList).drop 1).head?.bind parseF64L = some h →
      parseAspect s = .ok (w / h)) ∧
    ((∃ e, parseAspect s = .error e) ↔
      ((splitOnChar ':' s.toList).length < 2 ∨
        (splitOnChar ':' s.toList).head?.bind parseF64L = none ∨
        ((splitOnChar ':' s.toList).drop 1).head?.bind parseF64L = none)) := by
  unfold parseAspect
  cases hf : splitOnChar ':' s.toList with
  | nil =>
    constructor
    · intro w h hw hh
      simp at hw
    · simp
  | cons w1 rest =>
    cases hw1 : parseF64L w1 with
    | none =>
      constructor
      · intro w h hw hh
        simp [hw1] at hw
      · simp [hw1]
    | some wv =>
      cases rest with
      | nil =>
        constructor
        · intro w h hw hh
          simp at hh
        · simp [hw1]
      | cons h1 rest2 =>
        cases hh1 : parseF64L h1 with
        | none =>
          constructor
          · intro w h hw hh
            simp [hh1] at hh
          · simp [hw1, hh1]
        | some hv =>
          constructor
          · intro w h hw hh
            simp [hw1] at hw
            simp [hh1] at hh
            rw [← hw, ← hh]
            simp [hw1, hh1]
          · simp [hw1, hh1]

/-- C10 witness: `"16:9:extra"` — three fields, the extra one ignored —
parses to `16/9`. -/
theorem parseAspect_spec_witness :
    parseAspect "16:9:extra" = .ok (16 / 9) :=
  (parseAspect_spec "16:9:extra").1 16 9 rfl rfl

end RT
